import Mathlib

/-!
Verification of the photoscrub face-annotation and person-ranking engine
against its specification.

The development shallowly embeds the core logic of
`src/photoscrub/main.py`:

* `load_person_infos` (the spec's `selectReviewCandidates`): filter the
  person records to those with a positive face count and the unknown
  sentinel name, stable-sort descending by face count, then skip records
  whose key references are falsy, truncating at 9 entries.
* `pdb_photo_to_image` (the spec's `computeOverlay`): draw an ellipse at
  the record's pixel-space face center with both radii equal to
  `int(size * source_width)`.
* the key-face scan of `PersonPreviewTile.__init__`
  (the spec's `resolveKeyFace`).

Python floats are embedded as rationals, Python machine integers as `Int`,
and Python truthiness tests as explicit `Bool` functions.
-/

/-- Python truthiness of an optional integer: `None` and `0` are falsy,
every other integer is truthy (`if not pi.keyface`). -/
def pyTruthyInt : Option Int → Bool
  | none => false
  | some n => n != 0

/-- Python truthiness of an optional string: `None` and `""` are falsy
(`if not pi.keyphoto`). -/
def pyTruthyStr : Option String → Bool
  | none => false
  | some s => s != ""

/-- Python `int()` applied to a float: truncation toward zero. -/
def pyTrunc (x : Rat) : Int :=
  if 0 ≤ x then ⌊x⌋ else -⌊-x⌋

/-- Clamp an integer into the interval `[lo, hi]`. -/
def clampInt (lo hi v : Int) : Int :=
  max lo (min v hi)

/-- A face-detection record as consumed by the engine, mirroring the
fields of `osxphotos.personinfo.FaceInfo` that the code reads: the
database key `_pk`, the normalized center coordinates and size, the
source image's pixel dimensions, and the quality score `q`. -/
structure FaceInfo where
  _pk : Int
  center_x : Rat
  center_y : Rat
  size : Rat
  source_width : Int
  source_height : Int
  q : Rat
  deriving DecidableEq

/-- A photo record; the code only reads its `path`. -/
structure PhotoInfo where
  path : String
  deriving DecidableEq

/-- A person record, mirroring the fields of `osxphotos.PersonInfo` that
the code reads: `name`, `facecount`, the optional key references
`keyface` (a face `_pk`) and `keyphoto`, and the owned face list. -/
structure PersonInfo where
  name : String
  facecount : Nat
  keyface : Option Int
  keyphoto : Option String
  face_info : List FaceInfo
  deriving DecidableEq

/-- Modelled from the spec: the conversion of a face's normalized center
to pixel coordinates is performed by the external library property
`osxphotos.personinfo.FaceInfo.center`, whose code is not under `src/`;
following the spec's rules, each coordinate is the rounded product of the
normalized coordinate and the pixel dimension, clamped to
`[0, dimension - 1]`. -/
def FaceInfo.center (fi : FaceInfo) : Int × Int :=
  (clampInt 0 (fi.source_width - 1) (round (fi.center_x * (fi.source_width : Rat))),
   clampInt 0 (fi.source_height - 1) (round (fi.center_y * (fi.source_height : Rat))))

/-- The ellipse marker drawn by `pdb_photo_to_image`: centered at the
record's pixel center, with both radii `int(fi.size * fi.source_width)`. -/
structure Overlay where
  center : Int × Int
  rx : Int
  ry : Int
  deriving DecidableEq

/-- The overlay geometry of the `qp.drawEllipse` call in
`pdb_photo_to_image` (src/photoscrub/main.py lines 75-80). -/
def drawnOverlay (fi : FaceInfo) : Overlay :=
  ⟨fi.center,
   pyTrunc (fi.size * (fi.source_width : Rat)),
   pyTrunc (fi.size * (fi.source_width : Rat))⟩

/-- The observable result of `pdb_photo_to_image`: the loaded image path
and the overlay drawn on it, when a face was supplied. -/
structure QImageModel where
  path : String
  overlay : Option Overlay
  deriving DecidableEq

/-- Embedding of `pdb_photo_to_image` (src/photoscrub/main.py lines
63-82): load the image from `pi.path` and, when a face is given, draw the
ellipse marker described by `drawnOverlay`. -/
def pdb_photo_to_image (pi : PhotoInfo) (fi : Option FaceInfo) : QImageModel :=
  ⟨pi.path, fi.map drawnOverlay⟩

/-- Error raised by the key-face scan (`raise Exception("Failed to find
key face")`). -/
inductive KeyFaceError where
  | keyFaceNotFound
  deriving DecidableEq

/-- Python equality `fi._pk == pi.keyface` between an integer and an
optional integer: comparison with `None` is `False`. -/
def pkMatches (pk : Int) : Option Int → Bool
  | none => false
  | some k => pk == k

/-- Embedding of the key-face scan in `PersonPreviewTile.__init__`
(src/photoscrub/main.py lines 132-137): the first face whose `_pk`
equals `pi.keyface`, or an error when no face matches. -/
def resolveKeyFace (pi : PersonInfo) : Except KeyFaceError FaceInfo :=
  match pi.face_info.find? (fun fi => pkMatches fi._pk pi.keyface) with
  | some fi => Except.ok fi
  | none => Except.error KeyFaceError.keyFaceNotFound

/-- The filter of the list comprehension in `load_person_infos`:
`pi.facecount > 0 and pi.name == "_UNKNOWN_"`. -/
def preFilter (p : PersonInfo) : Bool :=
  decide (0 < p.facecount) && (p.name == "_UNKNOWN_")

/-- The truthiness tests on the key references inside the loop of
`load_person_infos` (`if not pi.keyface: continue`, `if not pi.keyphoto:
continue`). -/
def keyOkB (p : PersonInfo) : Bool :=
  pyTruthyInt p.keyface && pyTruthyStr p.keyphoto

/-- The full eligibility test the selector applies to a person record. -/
def eligibleAll (p : PersonInfo) : Bool :=
  preFilter p && keyOkB p

/-- The sort order of `sorted(..., key=lambda pi: pi.facecount,
reverse=True)`: descending by face count. -/
def sortRel (a b : PersonInfo) : Prop :=
  b.facecount ≤ a.facecount

instance : DecidableRel sortRel :=
  fun a b => Nat.decLe b.facecount a.facecount

instance : IsTotal PersonInfo sortRel :=
  ⟨fun a b => Nat.le_total b.facecount a.facecount⟩

instance : IsTrans PersonInfo sortRel :=
  ⟨fun _ _ _ hab hbc => Nat.le_trans hbc hab⟩

/-- The accumulating loop of `load_person_infos`: skip persons with falsy
key references, append the rest, and stop once 9 have been collected. -/
def selectLoop (acc : List PersonInfo) : List PersonInfo → List PersonInfo
  | [] => acc
  | pi :: rest =>
    if ! pyTruthyInt pi.keyface then selectLoop acc rest
    else if ! pyTruthyStr pi.keyphoto then selectLoop acc rest
    else
      let acc2 := acc ++ [pi]
      if 9 ≤ acc2.length then acc2 else selectLoop acc2 rest

/-- Embedding of `load_person_infos` (src/photoscrub/main.py lines
197-216). -/
def load_person_infos (persons : List PersonInfo) : List PersonInfo :=
  selectLoop [] ((persons.filter preFilter).insertionSort sortRel)

/-- The selector generalized over the truncation bound: the spec's
`selectReviewCandidates(allPersons, limit)`. The code fixes the bound to
the constant 9; `load_person_infos_eq_select` below proves that this
definition at `limit = 9` is exactly the code's loop. -/
def selectReviewCandidates (persons : List PersonInfo) (limit : Nat) : List PersonInfo :=
  (((persons.filter preFilter).insertionSort sortRel).filter keyOkB).take limit

/-- Eligibility as the spec's words state it in §3: positive face count,
sentinel name, and both key references present (rather than truthy). -/
def specEligiblePresent (p : PersonInfo) : Bool :=
  decide (0 < p.facecount) && (p.name == "_UNKNOWN_") && p.keyface.isSome && p.keyphoto.isSome

/-- The selector as the spec's words state it: filter by presence-based
eligibility, stable-sort descending by face count, truncate. -/
def specSelectReviewCandidates (persons : List PersonInfo) (limit : Nat) : List PersonInfo :=
  ((persons.filter specEligiblePresent).insertionSort sortRel).take limit

/-- Error the spec prescribes for non-positive image dimensions. -/
inductive OverlayError where
  | invalidImageDimensions
  deriving DecidableEq

/-- Follows the spec's words (§4.3) for `computeOverlay`, for comparison
with the code: fail on non-positive dimensions, round and clamp the
center, round the radius and clamp it to a minimum of 1 pixel, using the
horizontal scale for both axes. -/
def specComputeOverlay (fi : FaceInfo) : Except OverlayError Overlay :=
  if fi.source_width ≤ 0 ∨ fi.source_height ≤ 0 then
    Except.error OverlayError.invalidImageDimensions
  else
    Except.ok
      ⟨(clampInt 0 (fi.source_width - 1) (round (fi.center_x * (fi.source_width : Rat))),
        clampInt 0 (fi.source_height - 1) (round (fi.center_y * (fi.source_height : Rat)))),
       max 1 (round (fi.size * (fi.source_width : Rat))),
       max 1 (round (fi.size * (fi.source_width : Rat)))⟩

/-- A person whose key-face reference is present but falsy (`_pk` 0). -/
def pZeroKey : PersonInfo :=
  ⟨"_UNKNOWN_", 1, some 0, some "photo1", []⟩

/-- A person whose key-face reference is absent. -/
def pNoneKey : PersonInfo :=
  ⟨"_UNKNOWN_", 1, none, some "photo1", []⟩

/-- A person whose key-photo reference is present but falsy (empty). -/
def pEmptyPhoto : PersonInfo :=
  ⟨"_UNKNOWN_", 1, some 5, some "", []⟩

/-- An eligible person with 3 faces. -/
def pGood : PersonInfo :=
  ⟨"_UNKNOWN_", 3, some 5, some "photo1", []⟩

/-- An eligible person with 7 faces. -/
def pGood2 : PersonInfo :=
  ⟨"_UNKNOWN_", 7, some 6, some "photo2", []⟩

/-- The spec's second boundary face: normalized center `(1.0, 1.0)`,
size `0.5`, in a 1000x500 image. -/
def faceB : FaceInfo :=
  ⟨1, 1, 1, 1/2, 1000, 500, 0⟩

/-- The spec's first boundary face: normalized center `(0.0, 0.0)`,
size `0.0`, in a 1000x500 image. -/
def faceZ : FaceInfo :=
  ⟨2, 0, 0, 0, 1000, 500, 0⟩

/-- A face whose scaled size `(4/5) * 2 = 1.6` separates truncation from
rounding. -/
def faceT : FaceInfo :=
  ⟨3, 0, 0, 4/5, 2, 2, 0⟩

/-- A face whose source image has width 0. -/
def faceW0 : FaceInfo :=
  ⟨4, 0, 0, 1/2, 0, 500, 0⟩

/-- A concrete photo record. -/
def photo0 : PhotoInfo :=
  ⟨"img.jpg"⟩

/-- A face with quality score 1/2. -/
def faceQa : FaceInfo :=
  ⟨10, 1/4, 1/4, 1/8, 800, 600, 1/2⟩

/-- A face agreeing with `faceQa` on all geometry, with the degenerate
quality score -1. -/
def faceQb : FaceInfo :=
  ⟨11, 1/4, 1/4, 1/8, 800, 600, -1⟩

/-- A person whose declared key face `_pk` 9 matches none of its faces. -/
def personF9 : PersonInfo :=
  ⟨"_UNKNOWN_", 2, some 9, some "photo9", [⟨1, 0, 0, 0, 10, 10, 0⟩, ⟨2, 0, 0, 0, 10, 10, 0⟩]⟩

/-- First of two faces sharing `_pk` 7. -/
def faceDupA : FaceInfo :=
  ⟨7, 0, 0, 0, 10, 10, 0⟩

/-- Second of two faces sharing `_pk` 7. -/
def faceDupB : FaceInfo :=
  ⟨7, 1/2, 1/2, 1/4, 10, 10, 0⟩

/-- A person whose face list contains two faces with the key `_pk`. -/
def personDup : PersonInfo :=
  ⟨"_UNKNOWN_", 2, some 7, some "photoD", [faceDupA, faceDupB]⟩

/-- Input list for the C7 witness: two eligible persons and one without a
key face. -/
def psW : List PersonInfo :=
  [pGood, pGood2, pNoneKey]

/-! ### Characterization of the selection loop -/

/-- The accumulating loop of `load_person_infos` collects, in order, the
persons with truthy key references, until 9 are accumulated. -/
theorem selectLoop_eq (l : List PersonInfo) :
    ∀ acc : List PersonInfo, acc.length < 9 →
      selectLoop acc l = acc ++ (l.filter keyOkB).take (9 - acc.length) := by
  induction l with
  | nil =>
    intro acc _
    simp [selectLoop]
  | cons pi rest ih =>
    intro acc hacc
    by_cases hk : pyTruthyInt pi.keyface
    · by_cases hp : pyTruthyStr pi.keyphoto
      · have hfil : (pi :: rest).filter keyOkB = pi :: rest.filter keyOkB := by
          simp [List.filter_cons, keyOkB, hk, hp]
        rw [hfil]
        obtain ⟨m, hm⟩ : ∃ m, 9 - acc.length = m + 1 := ⟨8 - acc.length, by omega⟩
        rw [hm, List.take_succ_cons]
        have hlena : (acc ++ [pi]).length = acc.length + 1 := by simp
        by_cases hlen : 9 ≤ (acc ++ [pi]).length
        · have hm0 : m = 0 := by omega
          subst hm0
          simp only [List.take_zero]
          simp only [selectLoop, hk, hp, Bool.not_true, Bool.false_eq_true, if_false]
          rw [if_pos hlen]
        · have hlt : (acc ++ [pi]).length < 9 := by omega
          have ihx := ih (acc ++ [pi]) hlt
          have hm1 : 9 - (acc ++ [pi]).length = m := by omega
          rw [hm1] at ihx
          simp only [selectLoop, hk, hp, Bool.not_true, Bool.false_eq_true, if_false, hlen,
            ite_false]
          rw [ihx, List.append_assoc]
          rfl
      · have hfil : (pi :: rest).filter keyOkB = rest.filter keyOkB := by
          simp [List.filter_cons, keyOkB, hk, hp]
        rw [hfil, ← ih acc hacc]
        simp [selectLoop, hk, hp]
    · have hfil : (pi :: rest).filter keyOkB = rest.filter keyOkB := by
        simp [List.filter_cons, keyOkB, hk]
      rw [hfil, ← ih acc hacc]
      simp [selectLoop, hk]

/-- The code's `load_person_infos` is the generalized selector at the
code's constant truncation bound 9. -/
theorem load_person_infos_eq_select (persons : List PersonInfo) :
    load_person_infos persons = selectReviewCandidates persons 9 := by
  unfold load_person_infos selectReviewCandidates
  rw [selectLoop_eq _ [] (by simp)]
  simp

/-! ### Stable sorting lemmas -/

/-- Inserting an element related to everything in the list puts it in
front. -/
theorem orderedInsert_cons_of_rel (a : PersonInfo) (l : List PersonInfo)
    (h : ∀ x ∈ l, sortRel a x) : List.orderedInsert sortRel a l = a :: l := by
  cases l with
  | nil => rfl
  | cons b t => exact List.orderedInsert_of_le sortRel t (h b (List.mem_cons_self b t))

/-- For a predicate that only holds on one face-count tie class, ordered
insertion commutes with filtering: ties keep their input order. -/
theorem filter_orderedInsert_tie (pred : PersonInfo → Bool) (c : Nat)
    (hpred : ∀ p, pred p = true → p.facecount = c) (a : PersonInfo) :
    ∀ l : List PersonInfo,
      (List.orderedInsert sortRel a l).filter pred = ((a :: l).filter pred)
  | [] => rfl
  | b :: t => by
    by_cases hab : sortRel a b
    · rw [List.orderedInsert_of_le sortRel t hab]
    · have hstep : List.orderedInsert sortRel a (b :: t)
          = b :: List.orderedInsert sortRel a t := by
        rw [List.orderedInsert]
        exact if_neg hab
      have ht := filter_orderedInsert_tie pred c hpred a t
      cases hpb : pred b with
      | false => simp [hstep, List.filter_cons, hpb, ht, hab]
      | true =>
        have hpa : pred a = false := by
          cases hpa : pred a with
          | false => rfl
          | true =>
            exact absurd (le_of_eq ((hpred b hpb).trans (hpred a hpa).symm)) hab
        simp [hstep, List.filter_cons, hpb, hpa, ht, hab]

/-- Insertion sort preserves the relative order (and multiplicity) of the
elements of any single face-count tie class. -/
theorem filter_insertionSort_tie (pred : PersonInfo → Bool) (c : Nat)
    (hpred : ∀ p, pred p = true → p.facecount = c) :
    ∀ l : List PersonInfo,
      (List.insertionSort sortRel l).filter pred = l.filter pred
  | [] => rfl
  | a :: t => by
    rw [List.insertionSort,
      filter_orderedInsert_tie pred c hpred a (List.insertionSort sortRel t),
      List.filter_cons, List.filter_cons, filter_insertionSort_tie pred c hpred t]

/-- Filtering a sorted list commutes with ordered insertion. -/
theorem filter_orderedInsert_sorted (q : PersonInfo → Bool) (a : PersonInfo) :
    ∀ l : List PersonInfo, List.Sorted sortRel l →
      (List.orderedInsert sortRel a l).filter q =
        if q a then List.orderedInsert sortRel a (l.filter q) else l.filter q
  | [], _ => by
    cases hqa : q a with
    | false => simp [List.orderedInsert, List.filter_cons, hqa]
    | true => simp [List.orderedInsert, List.filter_cons, hqa]
  | b :: t, hs => by
    have hst : List.Sorted sortRel t := hs.of_cons
    have hbt : ∀ x ∈ t, sortRel b x := List.rel_of_sorted_cons hs
    by_cases hab : sortRel a b
    · rw [List.orderedInsert_of_le sortRel t hab]
      cases hqa : q a with
      | false => simp [List.filter_cons, hqa]
      | true =>
        have hrel : ∀ x ∈ (b :: t).filter q, sortRel a x := by
          intro x hx
          have hxmem : x ∈ b :: t := List.mem_of_mem_filter hx
          rcases List.mem_cons.mp hxmem with rfl | hxt
          · exact hab
          · exact IsTrans.trans a b x hab (hbt x hxt)
        rw [orderedInsert_cons_of_rel a ((b :: t).filter q) hrel]
        simp [List.filter_cons, hqa]
    · have hstep : List.orderedInsert sortRel a (b :: t)
          = b :: List.orderedInsert sortRel a t := by
        rw [List.orderedInsert]
        exact if_neg hab
      have ih := filter_orderedInsert_sorted q a t hst
      rw [hstep]
      cases hqb : q b with
      | false => simp [List.filter_cons, hqb, ih, hab]
      | true =>
        cases hqa : q a with
        | false => simp [List.filter_cons, hqb, hqa, ih, hab]
        | true => simp [List.filter_cons, hqb, hqa, ih, hab]

/-- Filtering commutes with the stable insertion sort. -/
theorem filter_insertionSort_comm (q : PersonInfo → Bool) :
    ∀ l : List PersonInfo,
      (List.insertionSort sortRel l).filter q = List.insertionSort sortRel (l.filter q)
  | [] => rfl
  | a :: t => by
    rw [List.insertionSort,
      filter_orderedInsert_sorted q a (List.insertionSort sortRel t)
        (List.sorted_insertionSort sortRel t),
      filter_insertionSort_comm q t]
    cases hqa : q a with
    | false => simp [List.filter_cons, hqa]
    | true => simp [List.filter_cons, hqa, List.insertionSort]

/-- The selector is: filter by the full (truthiness-based) eligibility
test, stable-sort descending by face count, truncate. -/
theorem select_eq_sort_filter_take (ps : List PersonInfo) (limit : Nat) :
    selectReviewCandidates ps limit
      = (List.insertionSort sortRel (ps.filter eligibleAll)).take limit := by
  unfold selectReviewCandidates
  rw [filter_insertionSort_comm keyOkB (ps.filter preFilter)]
  congr 2
  rw [List.filter_filter]
  exact List.filter_congr (fun p _ => by simp [eligibleAll, Bool.and_comm])

/-! ### Claims about the person selector -/

/-- C1 counterexample: a person whose `keyface` reference is present but
falsy (the id 0) is excluded by the code but included by the spec's
presence-based eligibility, so the selector differs from the claim's
filter-sort-truncate pipeline. -/
theorem selectReviewCandidates_presence_counterexample :
    selectReviewCandidates [pZeroKey] 1 ≠ specSelectReviewCandidates [pZeroKey] 1 := by
  decide

/-- C1 (amended): for every input sequence and limit, the selector
returns exactly the persons satisfying the truthiness-based eligibility
test (`faceCount > 0`, sentinel name, truthy `keyface`, truthy
`keyphoto`), stably sorted descending by face count and truncated to the
first `limit` entries; consequently the output length is at most `limit`,
every returned person is eligible, and the output is descending in face
count. -/
theorem selectReviewCandidates_eligible_sorted_truncated (ps : List PersonInfo) (limit : Nat) :
    selectReviewCandidates ps limit
        = (List.insertionSort sortRel (ps.filter eligibleAll)).take limit
    ∧ (selectReviewCandidates ps limit).length ≤ limit
    ∧ (∀ p, p ∈ selectReviewCandidates ps limit → eligibleAll p = true)
    ∧ List.Sorted sortRel (selectReviewCandidates ps limit) := by
  refine ⟨select_eq_sort_filter_take ps limit, ?_, ?_, ?_⟩
  · rw [select_eq_sort_filter_take, List.length_take]
    exact min_le_left _ _
  · intro p hp
    rw [select_eq_sort_filter_take] at hp
    have h1 : p ∈ List.insertionSort sortRel (ps.filter eligibleAll) :=
      List.mem_of_mem_take hp
    have h2 : p ∈ ps.filter eligibleAll := (List.mem_insertionSort sortRel).mp h1
    exact (List.mem_filter.mp h2).2
  · rw [select_eq_sort_filter_take]
    exact List.Pairwise.sublist (List.take_sublist limit _)
      (List.sorted_insertionSort sortRel (ps.filter eligibleAll))

/-- C1 witness: a concrete eligible person is selected and satisfies the
eligibility test. -/
theorem selectReviewCandidates_eligible_sorted_truncated_witness :
    pGood ∈ selectReviewCandidates [pGood] 1 ∧ eligibleAll pGood = true :=
  ⟨by decide,
   (selectReviewCandidates_eligible_sorted_truncated [pGood] 1).2.2.1 pGood (by decide)⟩

/-- C6: the selector is stable on face-count ties: the members of any
single face-count class appear in the output in their input order (as a
sublist of the eligible input members of that class), and identical
inputs yield identical outputs. -/
theorem selectReviewCandidates_stable_ties (ps qs : List PersonInfo) (limit c : Nat)
    (h : ps = qs) :
    List.Sublist
        ((selectReviewCandidates ps limit).filter (fun p => p.facecount == c))
        (ps.filter (fun p => eligibleAll p && (p.facecount == c)))
    ∧ selectReviewCandidates ps limit = selectReviewCandidates qs limit := by
  constructor
  · rw [select_eq_sort_filter_take]
    have h1 : List.Sublist
        (((List.insertionSort sortRel (ps.filter eligibleAll)).take limit).filter
          (fun p => p.facecount == c))
        ((List.insertionSort sortRel (ps.filter eligibleAll)).filter
          (fun p => p.facecount == c)) :=
      List.Sublist.filter _ (List.take_sublist limit _)
    have h2 : (List.insertionSort sortRel (ps.filter eligibleAll)).filter
          (fun p => p.facecount == c)
        = (ps.filter eligibleAll).filter (fun p => p.facecount == c) :=
      filter_insertionSort_tie _ c (fun p hp => by simpa using hp) _
    rw [h2, List.filter_filter] at h1
    have h3 : ps.filter (fun a => (a.facecount == c) && eligibleAll a)
        = ps.filter (fun p => eligibleAll p && (p.facecount == c)) :=
      List.filter_congr (fun p _ => by simp [Bool.and_comm])
    rwa [h3] at h1
  · rw [h]

/-- C6 witness: stability at a concrete input. -/
theorem selectReviewCandidates_stable_ties_witness :
    List.Sublist
        ((selectReviewCandidates [pGood] 1).filter (fun p => p.facecount == 3))
        ([pGood].filter (fun p => eligibleAll p && (p.facecount == 3))) :=
  (selectReviewCandidates_stable_ties [pGood] [pGood] 1 3 rfl).1

/-- C7: the selector never fails: on empty input it returns the empty
sequence, and when `limit` is at least the number of eligible candidates
it returns the whole sorted eligible set. -/
theorem selectReviewCandidates_never_fails (ps : List PersonInfo) (limit : Nat)
    (h : (ps.filter eligibleAll).length ≤ limit) :
    selectReviewCandidates ps limit = List.insertionSort sortRel (ps.filter eligibleAll)
    ∧ selectReviewCandidates [] limit = [] := by
  constructor
  · rw [select_eq_sort_filter_take]
    exact List.take_of_length_le (by rw [List.length_insertionSort]; exact h)
  · simp [selectReviewCandidates]

/-- C7 witness: with 2 eligible candidates and limit 9, both are
returned. -/
theorem selectReviewCandidates_never_fails_witness :
    (psW.filter eligibleAll).length ≤ 9
    ∧ selectReviewCandidates psW 9 = List.insertionSort sortRel (psW.filter eligibleAll) :=
  ⟨by decide, (selectReviewCandidates_never_fails psW 9 (by decide)).1⟩

/-- C10: the selector tests the key references by Python truthiness
rather than presence: every selected person has truthy references, and a
person whose `keyface` is the present-but-falsy id 0, or whose `keyphoto`
is the present-but-falsy empty string, is excluded exactly like one whose
reference is absent. -/
theorem selectReviewCandidates_truthiness (ps : List PersonInfo) (limit : Nat)
    (p : PersonInfo) :
    (p ∈ selectReviewCandidates ps limit →
      pyTruthyInt p.keyface = true ∧ pyTruthyStr p.keyphoto = true)
    ∧ selectReviewCandidates [pZeroKey] limit = []
    ∧ selectReviewCandidates [pNoneKey] limit = []
    ∧ selectReviewCandidates [pEmptyPhoto] limit = [] := by
  refine ⟨?_, ?_, ?_, ?_⟩
  · intro hp
    unfold selectReviewCandidates at hp
    have h1 := List.mem_of_mem_take hp
    have h2 : keyOkB p = true := (List.mem_filter.mp h1).2
    simpa [keyOkB, Bool.and_eq_true] using h2
  · have hx : (([pZeroKey].filter preFilter).insertionSort sortRel).filter keyOkB = [] := by
      decide
    unfold selectReviewCandidates
    rw [hx]
    simp
  · have hx : (([pNoneKey].filter preFilter).insertionSort sortRel).filter keyOkB = [] := by
      decide
    unfold selectReviewCandidates
    rw [hx]
    simp
  · have hx : (([pEmptyPhoto].filter preFilter).insertionSort sortRel).filter keyOkB = [] := by
      decide
    unfold selectReviewCandidates
    rw [hx]
    simp

/-- C10 witness: a person with truthy references is selected, and its
references are indeed truthy. -/
theorem selectReviewCandidates_truthiness_witness :
    pGood2 ∈ selectReviewCandidates [pGood2] 2
    ∧ pyTruthyInt pGood2.keyface = true ∧ pyTruthyStr pGood2.keyphoto = true :=
  ⟨by decide, (selectReviewCandidates_truthiness [pGood2] 2 pGood2).1 (by decide)⟩

/-! ### Claims about the overlay calculator -/

/-- C2: with positive image dimensions, the overlay center is the
rounded product of the normalized center coordinate and the corresponding
pixel dimension, clamped into `[0, dimension - 1]`; in particular the
boundary face with normalized center `(1.0, 1.0)` in a 1000x500 image is
marked at pixel `(999, 499)`. -/
theorem overlay_center_rounded_clamped (pi : PhotoInfo) (fi : FaceInfo)
    (hw : 0 < fi.source_width) (hh : 0 < fi.source_height) :
    ((pdb_photo_to_image pi (some fi)).overlay = some (drawnOverlay fi)
      ∧ (drawnOverlay fi).center.1
          = clampInt 0 (fi.source_width - 1) (round (fi.center_x * (fi.source_width : Rat)))
      ∧ (drawnOverlay fi).center.2
          = clampInt 0 (fi.source_height - 1) (round (fi.center_y * (fi.source_height : Rat)))
      ∧ 0 ≤ (drawnOverlay fi).center.1
      ∧ (drawnOverlay fi).center.1 ≤ fi.source_width - 1
      ∧ 0 ≤ (drawnOverlay fi).center.2
      ∧ (drawnOverlay fi).center.2 ≤ fi.source_height - 1)
    ∧ (drawnOverlay faceB).center = (999, 499) := by
  constructor
  · refine ⟨rfl, rfl, rfl, ?_, ?_, ?_, ?_⟩
    · exact le_max_left 0 _
    · exact max_le (by omega) (min_le_right _ _)
    · exact le_max_left 0 _
    · exact max_le (by omega) (min_le_right _ _)
  · show (faceB.center.1, faceB.center.2) = ((999 : Int), (499 : Int))
    have h1 : faceB.center.1 = 999 := by
      show clampInt 0 (1000 - 1) (round ((1 : Rat) * ((1000 : Int) : Rat))) = 999
      norm_num [clampInt]
    have h2 : faceB.center.2 = 499 := by
      show clampInt 0 (500 - 1) (round ((1 : Rat) * ((500 : Int) : Rat))) = 499
      norm_num [clampInt]
    rw [h1, h2]

/-- C2 witness: the center formula at a concrete face with positive
dimensions. -/
theorem overlay_center_rounded_clamped_witness :
    0 < faceQa.source_width ∧ 0 < faceQa.source_height
    ∧ (pdb_photo_to_image photo0 (some faceQa)).overlay = some (drawnOverlay faceQa) :=
  ⟨by decide, by decide,
   ((overlay_center_rounded_clamped photo0 faceQa (by decide) (by decide)).1).1⟩

/-- C3 counterexample: at the spec's boundary face (size 0.0, width 1000)
the code draws radius 0 where the claimed minimum clamp would give 1, and
at size 4/5 with width 2 the code truncates 1.6 to 1 where the claimed
rounding gives 2. -/
theorem overlay_radius_min_clamp_counterexample :
    (drawnOverlay faceZ).rx = 0
    ∧ specComputeOverlay faceZ = Except.ok ⟨(0, 0), 1, 1⟩
    ∧ (drawnOverlay faceT).rx = 1
    ∧ specComputeOverlay faceT = Except.ok ⟨(0, 0), 2, 2⟩ := by
  refine ⟨?_, ?_, ?_, ?_⟩
  · show pyTrunc ((0 : Rat) * ((1000 : Int) : Rat)) = 0
    norm_num [pyTrunc]
  · show specComputeOverlay faceZ = Except.ok ⟨(0, 0), 1, 1⟩
    rw [specComputeOverlay]
    rw [if_neg (by norm_num [faceZ])]
    norm_num [faceZ, clampInt]
  · show pyTrunc ((4 / 5 : Rat) * ((2 : Int) : Rat)) = 1
    rw [pyTrunc, if_pos (by norm_num)]
    norm_num
  · rw [specComputeOverlay]
    rw [if_neg (by norm_num [faceT])]
    norm_num [faceT, clampInt, round_eq]

/-- C3 (amended): the drawn radius is the truncation toward zero of
`sizeNormalized * imagePixelWidth`, with no minimum clamp, and the same
horizontally-scaled value is used for both axes of the marker. -/
theorem overlay_radius_truncated_both_axes (fi : FaceInfo) :
    (drawnOverlay fi).rx = pyTrunc (fi.size * (fi.source_width : Rat))
    ∧ (drawnOverlay fi).ry = (drawnOverlay fi).rx :=
  ⟨rfl, rfl⟩

/-- C5 counterexample: for a face whose source image width is 0 the
spec's calculator fails with `InvalidImageDimensions`, but the code
returns an image with a drawn overlay of radius 0 instead of failing. -/
theorem overlay_dimension_validation_counterexample :
    specComputeOverlay faceW0 = Except.error OverlayError.invalidImageDimensions
    ∧ (pdb_photo_to_image photo0 (some faceW0)).overlay = some ⟨faceW0.center, 0, 0⟩ := by
  constructor
  · rw [specComputeOverlay, if_pos (by norm_num [faceW0])]
  · show some (drawnOverlay faceW0) = some ⟨faceW0.center, 0, 0⟩
    have hr : pyTrunc (faceW0.size * (faceW0.source_width : Rat)) = 0 := by
      show pyTrunc ((1 / 2 : Rat) * ((0 : Int) : Rat)) = 0
      norm_num [pyTrunc]
    unfold drawnOverlay
    rw [hr]

/-- C5 (amended): the code performs no dimension validation: whenever a
pixel dimension is non-positive, where the spec's calculator fails with
`InvalidImageDimensions`, the code still returns the drawn overlay
without error. -/
theorem overlay_accepts_nonpositive_dimensions (pi : PhotoInfo) (fi : FaceInfo)
    (h : fi.source_width ≤ 0 ∨ fi.source_height ≤ 0) :
    specComputeOverlay fi = Except.error OverlayError.invalidImageDimensions
    ∧ (pdb_photo_to_image pi (some fi)).overlay = some (drawnOverlay fi) := by
  constructor
  · rw [specComputeOverlay, if_pos h]
  · rfl

/-- C5 witness: the divergence at the zero-width face. -/
theorem overlay_accepts_nonpositive_dimensions_witness :
    (faceW0.source_width ≤ 0 ∨ faceW0.source_height ≤ 0)
    ∧ specComputeOverlay faceW0 = Except.error OverlayError.invalidImageDimensions :=
  ⟨Or.inl (by decide),
   (overlay_accepts_nonpositive_dimensions photo0 faceW0 (Or.inl (by decide))).1⟩

/-- C8: the overlay geometry is a deterministic function of the
normalized center, normalized size and image pixel dimensions alone: two
faces agreeing on those yield identical results whatever their quality
scores (in particular a quality score of -1.0 is accepted like any
other). -/
theorem overlay_independent_of_quality (f g : FaceInfo) (pi : PhotoInfo)
    (hcx : f.center_x = g.center_x) (hcy : f.center_y = g.center_y)
    (hs : f.size = g.size) (hw : f.source_width = g.source_width)
    (hh : f.source_height = g.source_height) :
    pdb_photo_to_image pi (some f) = pdb_photo_to_image pi (some g) := by
  unfold pdb_photo_to_image drawnOverlay FaceInfo.center
  simp [hcx, hcy, hs, hw, hh]

/-- C8 witness: two faces agreeing on geometry but with quality scores
1/2 and -1 yield the same image. -/
theorem overlay_independent_of_quality_witness :
    faceQb.q = -1
    ∧ pdb_photo_to_image photo0 (some faceQa) = pdb_photo_to_image photo0 (some faceQb) :=
  ⟨rfl, overlay_independent_of_quality faceQa faceQb photo0 rfl rfl rfl rfl rfl⟩

/-! ### Claims about the key-face resolver -/

/-- The scan returns the head of the first matching suffix: `find?` over
an append whose left part contains no match. -/
theorem find?_append_first (p : FaceInfo → Bool) (fi : FaceInfo) :
    ∀ l₁ : List FaceInfo, (∀ g ∈ l₁, p g = false) → p fi = true →
      ∀ l₂ : List FaceInfo, (l₁ ++ fi :: l₂).find? p = some fi
  | [], _, hfi, l₂ => by
    rw [List.nil_append, List.find?_cons_of_pos l₂ hfi]
  | g :: t, hall, hfi, l₂ => by
    have hg : p g = false := hall g (List.mem_cons_self g t)
    rw [List.cons_append, List.find?_cons_of_neg _ (by simp [hg])]
    exact find?_append_first p fi t (fun x hx => hall x (List.mem_cons_of_mem g hx)) hfi l₂

/-- C4: with a present key-face reference, the scan returns only faces
from the person's own list whose `_pk` equals the reference, and fails
with `KeyFaceNotFound` exactly when no face in the list matches; it never
substitutes a non-matching face. -/
theorem resolveKeyFace_matches_or_fails (pi : PersonInfo) (k : Int)
    (hk : pi.keyface = some k) :
    (resolveKeyFace pi = Except.error KeyFaceError.keyFaceNotFound ↔
      ∀ fi ∈ pi.face_info, fi._pk ≠ k)
    ∧ ∀ fi : FaceInfo, resolveKeyFace pi = Except.ok fi →
        fi ∈ pi.face_info ∧ fi._pk = k := by
  cases hfind : pi.face_info.find? (fun fi => pkMatches fi._pk pi.keyface) with
  | none =>
    have herr : resolveKeyFace pi = Except.error KeyFaceError.keyFaceNotFound := by
      unfold resolveKeyFace
      rw [hfind]
    have hall : ∀ fi ∈ pi.face_info, fi._pk ≠ k := by
      intro fi hfi
      have hfalse := List.find?_eq_none.mp hfind fi hfi
      simpa [pkMatches, hk] using hfalse
    refine ⟨⟨fun _ => hall, fun _ => herr⟩, ?_⟩
    intro fi hok
    rw [herr] at hok
    exact Except.noConfusion hok
  | some fi0 =>
    have hokk : resolveKeyFace pi = Except.ok fi0 := by
      unfold resolveKeyFace
      rw [hfind]
    have hp : fi0._pk = k := by
      have hh := List.find?_some hfind
      simpa [pkMatches, hk] using hh
    have hmem : fi0 ∈ pi.face_info := List.mem_of_find?_eq_some hfind
    constructor
    · constructor
      · intro hcon
        rw [hokk] at hcon
        exact Except.noConfusion hcon
      · intro hall
        exact absurd hp (hall fi0 hmem)
    · intro fi hok
      rw [hokk] at hok
      obtain rfl := Except.ok.inj hok
      exact ⟨hmem, hp⟩

/-- C4 witness: a person whose declared key face 9 matches no face in its
list fails with `KeyFaceNotFound`. -/
theorem resolveKeyFace_matches_or_fails_witness :
    personF9.keyface = some 9
    ∧ resolveKeyFace personF9 = Except.error KeyFaceError.keyFaceNotFound :=
  ⟨rfl, (resolveKeyFace_matches_or_fails personF9 9 rfl).1.mpr (by decide)⟩

/-- C9: when several faces carry the key `_pk`, the scan returns the
first such face in the list's order, deterministically. -/
theorem resolveKeyFace_first_match (pi : PersonInfo) (k : Int) (l₁ l₂ : List FaceInfo)
    (fi : FaceInfo) (hk : pi.keyface = some k) (hsplit : pi.face_info = l₁ ++ fi :: l₂)
    (hpk : fi._pk = k) (hbefore : ∀ g ∈ l₁, g._pk ≠ k) :
    resolveKeyFace pi = Except.ok fi := by
  unfold resolveKeyFace
  rw [hsplit, hk]
  rw [find?_append_first (fun f => pkMatches f._pk (some k)) fi l₁
    (fun g hg => by simp only [pkMatches, beq_eq_false_iff_ne]; exact hbefore g hg)
    (by simp [pkMatches, hpk]) l₂]

/-- C9 witness: with two faces both carrying `_pk` 7, the first one is
returned. -/
theorem resolveKeyFace_first_match_witness :
    faceDupA._pk = faceDupB._pk ∧ resolveKeyFace personDup = Except.ok faceDupA :=
  ⟨rfl, resolveKeyFace_first_match personDup 7 [] [faceDupB] faceDupA rfl rfl rfl
    (by simp)⟩
